import Mathlib

/-!
Verification of the SSD training core (prior-box generation, target
encoding, and loss computation) as implemented in `ssd.py`.

Modelling conventions:
* Python/NumPy/TensorFlow float arithmetic is embedded as exact rational
  arithmetic over `ℚ`; tensors become (nested) lists.
* `math.sqrt` has no exact rational counterpart, so every function that
  uses it is parametrised by a `SqrtModel`: an arbitrary function
  `ℚ → ℚ` together with the facts about `math.sqrt` on floats that the
  source relies on (`sqrt 0 = 0`, `sqrt 1 = 1`, positivity on positive
  inputs).  No claim settled here depends on the numeric value of a
  square root beyond those facts.
* A Python runtime error (ZeroDivisionError, IndexError, `math.sqrt` of
  a negative number) is embedded as `Option.none`; a function returns
  `some` exactly when the Python code returns normally.
* The per-prior categorical cross-entropy of `tf.losses` is likewise
  parametrised as an arbitrary function `ce`: the claims about
  `conf_loss_fn` (hard-negative counting and the zero-positive guard)
  are independent of the numeric loss values.
-/

/-- Abstract model of `math.sqrt` on nonnegative floats: only the facts
the SSD source relies on are recorded. -/
structure SqrtModel where
  sqrt : ℚ → ℚ
  sqrt_zero : sqrt 0 = 0
  sqrt_one : sqrt 1 = 1
  sqrt_pos : ∀ x : ℚ, 0 < x → 0 < sqrt x
  sqrt_nonneg : ∀ x : ℚ, 0 ≤ x → 0 ≤ sqrt x

/-- A concrete inhabitant of `SqrtModel`, used to evaluate theorems on
concrete inputs. -/
def sqrtOne : SqrtModel where
  sqrt := fun x => if 0 < x then 1 else 0
  sqrt_zero := by norm_num
  sqrt_one := by norm_num
  sqrt_pos := by
    intro x hx
    simp [hx]
  sqrt_nonneg := by
    intro x hx
    dsimp only
    split <;> norm_num

/-- A prior box `(y_min, x_min, y_max, x_max)` in normalized coordinates. -/
abbrev Box : Type := ℚ × ℚ × ℚ × ℚ

/-- Embedding of `np.clip(_, 0, 1)` applied to one coordinate. -/
def clip01 (x : ℚ) : ℚ := min 1 (max 0 x)

/-- Clip all four coordinates of a box to the unit interval. -/
def clipBox (b : Box) : Box :=
  (clip01 b.1, clip01 b.2.1, clip01 b.2.2.1, clip01 b.2.2.2)

/-- Embedding of `get_scale_for_nth_feature_map(k, m)` with the source
defaults `scale_min=0.2`, `scale_max=0.9` (the only values the
repository uses).  Python raises `ZeroDivisionError` when `m = 1`,
embedded as `none`. -/
def get_scale_for_nth_feature_map (k m : ℕ) : Option ℚ :=
  if m = 1 then none
  else some ((0.2 : ℚ) + (((0.9 : ℚ) - 0.2) / ((m : ℚ) - 1)) * ((k : ℚ) - 1))

/-- Embedding of `get_height_width_pairs(aspect_ratios, feature_map_index,
total_feature_map)`.  `math.sqrt` of a negative ratio raises
`ValueError` and a zero square root makes `current_scale / sqrt(r)`
raise `ZeroDivisionError`; both are embedded as `none`. -/
def get_height_width_pairs (sq : SqrtModel) (aspect_ratios : List ℚ)
    (feature_map_index total_feature_map : ℕ) : Option (List (ℚ × ℚ)) := do
  let current_scale ← get_scale_for_nth_feature_map feature_map_index total_feature_map
  let next_scale ← get_scale_for_nth_feature_map (feature_map_index + 1) total_feature_map
  let pairs ← aspect_ratios.mapM (fun r =>
    if r < 0 then none
    else if sq.sqrt r = 0 then none
    else some (current_scale / sq.sqrt r, current_scale * sq.sqrt r))
  if current_scale * next_scale < 0 then none
  else
    let extra := sq.sqrt (current_scale * next_scale)
    some (pairs ++ [(extra, extra)])

/-- Embedding of `generate_base_prior_boxes(stride, height_width_pairs)`:
boxes centred at `stride / 2`. -/
def generate_base_prior_boxes (stride : ℚ) (height_width_pairs : List (ℚ × ℚ)) :
    List Box :=
  height_width_pairs.map (fun hw =>
    (stride / 2 - hw.1 / 2, stride / 2 - hw.2 / 2,
     stride / 2 + hw.1 / 2, stride / 2 + hw.2 / 2))

/-- One iteration of the loop body of `generate_prior_boxes`: the boxes
contributed by the feature map of side length `s` at (1-based) scale
index `k` out of `m`.  Cells are enumerated row-major (the `meshgrid` /
`ravel` order of the source) and, within a cell, aspect ratios in input
order with the extra ratio-1 box last. -/
def priorBoxesForFeatureMap (sq : SqrtModel) (ar : List ℚ) (k m s : ℕ) :
    Option (List Box) := do
  let hwp ← get_height_width_pairs sq ar k m
  if s = 0 then none
  else
    let base := generate_base_prior_boxes (1 / (s : ℚ)) hwp
    let cells := (List.range s).flatMap (fun (y : ℕ) =>
      (List.range s).map (fun (x : ℕ) => ((y : ℚ) / (s : ℚ), (x : ℚ) / (s : ℚ))))
    some (cells.flatMap (fun c => base.map (fun b =>
      (b.1 + c.1, b.2.1 + c.2, b.2.2.1 + c.1, b.2.2.2 + c.2))))

/-- The enumerated loop of `generate_prior_boxes`: `i` is the current
index into `feature_map_shapes`, `ars` the full aspect-ratio list and
`m` the number of feature maps.  `ars[i]?` embeds the Python
`aspect_ratios[i]` access (IndexError becomes `none`). -/
def genLoop (sq : SqrtModel) (ars : List (List ℚ)) (m : ℕ) :
    ℕ → List ℕ → Option (List Box)
  | _, [] => some []
  | i, s :: rest => do
    let ar ← ars[i]?
    let boxes ← priorBoxesForFeatureMap sq ar (i + 1) m s
    let more ← genLoop sq ars m (i + 1) rest
    some (boxes ++ more)

/-- Embedding of `generate_prior_boxes(feature_map_shapes, aspect_ratios)`.
`np.concatenate` of an empty list raises, hence the emptiness guard;
the final `np.clip(prior_boxes, 0, 1)` clips every coordinate. -/
def generate_prior_boxes (sq : SqrtModel) (feature_map_shapes : List ℕ)
    (aspect_ratios : List (List ℚ)) : Option (List Box) :=
  if feature_map_shapes.isEmpty then none
  else (genLoop sq aspect_ratios feature_map_shapes.length 0 feature_map_shapes).map
    (List.map clipBox)

/-- Last component of a per-prior row: embedding of the
`actual_labels[..., -1]` indexing in `conf_loss_fn`. -/
def lastComp (r : List ℚ) : ℚ := r.getD (r.length - 1) 0

/-- Embedding of `pos_cond` in `loc_loss_fn`: a prior is positive iff
its actual delta row has some non-zero component
(`tf.reduce_any(tf.not_equal(actual_bbox_deltas, 0), axis=2)`). -/
def rowPos (r : List ℚ) : Bool := r.any (fun x => decide (x ≠ 0))

/-- Elementwise Huber loss with the Keras default boundary
`delta = 1.0`: quadratic for `|t - p| ≤ 1`, linear beyond. -/
def huber1 (t p : ℚ) : ℚ :=
  if |t - p| ≤ 1 then (t - p) ^ 2 / 2 else |t - p| - 1 / 2

/-- Keras `tf.losses.Huber` value of one gathered row pair: the mean
over the last axis of the elementwise Huber losses. -/
def huberRow (t p : List ℚ) : ℚ := (List.zipWith huber1 t p).sum / (t.length : ℚ)

/-- Embedding of `loc_loss_fn(actual_bbox_deltas, pred_bbox_deltas)`.
`tf.gather_nd` at the positive indices becomes a filter over the
batch-flattened row pairs; the final `tf.where` guard maps a
zero-positive batch to exactly `0`. -/
def loc_loss_fn (actual_bbox_deltas pred_bbox_deltas : List (List (List ℚ))) : ℚ :=
  let gathered := (actual_bbox_deltas.zip pred_bbox_deltas).flatMap
    (fun ip => (ip.1.zip ip.2).filter (fun rp => rowPos rp.1))
  let total_pos_bboxes : ℕ :=
    (actual_bbox_deltas.map (fun img => img.countP rowPos)).sum
  let loc_loss : ℚ := (gathered.map (fun rp => huberRow rp.1 rp.2)).sum
  if (total_pos_bboxes : ℚ) ≠ 0 then loc_loss / (total_pos_bboxes : ℚ) else 0

/-- Statement of the localization loss following the specification text:
select the row pairs whose actual row has a non-zero component, sum the
Huber losses over the selection and divide by the number of selected
(positive) entries, with `0` for an empty selection. -/
def locLossSpec (actual_bbox_deltas pred_bbox_deltas : List (List (List ℚ))) : ℚ :=
  let rows := (actual_bbox_deltas.zip pred_bbox_deltas).flatMap (fun ip => ip.1.zip ip.2)
  let selected := rows.filter (fun rp => rowPos rp.1)
  if selected.length = 0 then 0
  else (selected.map (fun rp => huberRow rp.1 rp.2)).sum / (selected.length : ℚ)

/-- Embedding of `tf.one_hot(i, n)`: out-of-range indices (including the
negative ones) give the all-zero row. -/
def oneHot (n : ℕ) (i : ℤ) : List ℚ :=
  (List.range n).map (fun (j : ℕ) => if (j : ℤ) = i then 1 else 0)

/-- Per-image positive-prior count of `conf_loss_fn`
(`pos_cond = tf.not_equal(actual_labels[..., -1], 1)` counted per image). -/
def imagePosCount (labels : List (List ℚ)) : ℕ :=
  labels.countP (fun r => decide (lastComp r ≠ 1))

/-- Sort key of the hard-negative-mining sort: positives are masked to
`-inf` (`⊥` in `WithBot ℚ`), negatives keep their cross-entropy loss. -/
def sortKey (q : Bool × ℚ) : WithBot ℚ := if q.1 then ⊥ else (q.2 : WithBot ℚ)

/-- Descending order on masked losses, as used by
`tf.argsort(masked_loss, direction="DESCENDING")`. -/
def sortDescRel (a b : Bool × ℚ) : Prop := sortKey b ≤ sortKey a

instance : DecidableRel sortDescRel := fun a b =>
  inferInstanceAs (Decidable (sortKey b ≤ sortKey a))

instance : IsTotal (Bool × ℚ) sortDescRel :=
  ⟨fun a b => (le_total (sortKey a) (sortKey b)).symm⟩

instance : IsTrans (Bool × ℚ) sortDescRel :=
  ⟨fun _ _ _ hab hbc => le_trans hbc hab⟩

/-- Per-image pairs `(is_positive, cross_entropy_loss)` for one batch
image, `ce` being the per-prior categorical cross-entropy. -/
def imagePairs (ce : List ℚ → List ℚ → ℚ) (labels preds : List (List ℚ)) :
    List (Bool × ℚ) :=
  List.zipWith (fun ar pr => (decide (lastComp ar ≠ 1), ce ar pr)) labels preds

/-- The entries selected as hard negatives for one image: the first
`3 * positive_count` entries of the image's priors sorted by masked loss
descending (embedding of `neg_bbox_indices`; ties in `tf.argsort` are
resolved by the insertion sort's stable order, which no settled claim
depends on). -/
def negSelected (ce : List ℚ → List ℚ → ℚ) (labels preds : List (List ℚ)) :
    List (Bool × ℚ) :=
  (List.insertionSort sortDescRel (imagePairs ce labels preds)).take
    (3 * imagePosCount labels)

/-- Per-image contribution to the confidence loss: the gathered losses
at the positive indices plus the gathered losses at the selected
hard-negative indices. -/
def imageConfSum (ce : List ℚ → List ℚ → ℚ) (labels preds : List (List ℚ)) : ℚ :=
  (((imagePairs ce labels preds).filter (fun q => q.1)).map (fun q => q.2)).sum +
    ((negSelected ce labels preds).map (fun q => q.2)).sum

/-- Embedding of `conf_loss_fn(actual_labels, pred_labels)`,
parametrised by the per-prior cross-entropy `ce`. -/
def conf_loss_fn (ce : List ℚ → List ℚ → ℚ)
    (actual_labels pred_labels : List (List (List ℚ))) : ℚ :=
  let total_pos_bboxes : ℕ := (actual_labels.map imagePosCount).sum
  let conf_loss : ℚ :=
    ((actual_labels.zip pred_labels).map (fun ip => imageConfSum ce ip.1 ip.2)).sum
  if (total_pos_bboxes : ℚ) ≠ 0 then conf_loss / (total_pos_bboxes : ℚ) else 0

/-- Embedding of the label-target computation of
`calculate_actual_outputs` (its last four lines): a background one-hot
for every prior, overwritten at the matched prior indices by the one-hot
of the matched ground-truth label.  The matched index pairs
`(prior_index, gt_index)` come from `helpers.get_selected_indices`,
which is external to this repository, so they are taken as a parameter;
`tf.tensor_scatter_nd_update` becomes a left fold of point updates
(last update wins, which agrees with the tensor op on distinct
indices). -/
def calculate_actual_labels (total_labels total_prior_boxes : ℕ)
    (matched : List (ℕ × ℕ)) (gt_labels : List ℤ) : List (List ℚ) :=
  matched.foldl
    (fun rows mt => rows.set mt.1 (oneHot total_labels (gt_labels.getD mt.2 0)))
    ((List.range total_prior_boxes).map
      (fun _ => oneHot total_labels ((total_labels : ℤ) - 1)))

theorem clip01_nonneg (x : ℚ) : 0 ≤ clip01 x :=
  le_min zero_le_one (le_max_left 0 x)

theorem clip01_le_one (x : ℚ) : clip01 x ≤ 1 :=
  min_le_left 1 (max 0 x)

theorem oneHot_length (n : ℕ) (i : ℤ) : (oneHot n i).length = n := by
  rw [oneHot, List.length_map, List.length_range]

theorem oneHot_getD (n : ℕ) (i : ℤ) (j : ℕ) (hj : j < n) :
    (oneHot n i).getD j 0 = if (j : ℤ) = i then 1 else 0 := by
  rw [oneHot, List.getD_eq_getElem?_getD, List.getElem?_map, List.getElem?_range hj]
  rfl

theorem lastComp_oneHot_bg (n : ℕ) (hn : 1 ≤ n) :
    lastComp (oneHot n ((n : ℤ) - 1)) = 1 := by
  have hlt : n - 1 < n := Nat.sub_lt hn one_pos
  rw [lastComp, oneHot_length, oneHot_getD n _ _ hlt, if_pos]
  omega

theorem rowPos_eq_false_of_all_zero (r : List ℚ) (h : ∀ x ∈ r, x = 0) :
    rowPos r = false := by
  simp only [rowPos, List.any_eq_false, decide_eq_true_eq, not_not]
  exact h

/-- C2: with an all-background batch (every actual delta row all-zero,
every actual label row the background one-hot), both `loc_loss_fn` and
`conf_loss_fn` return exactly `0` (the `tf.where` guard selects the `0`
branch instead of dividing by the zero positive count). -/
theorem C2_zero_positive_batch_losses_zero
    (ce : List ℚ → List ℚ → ℚ) (n : ℕ)
    (actualD predD actualL predL : List (List (List ℚ)))
    (hn : 1 ≤ n)
    (hD : ∀ img ∈ actualD, ∀ r ∈ img, ∀ x ∈ r, x = (0 : ℚ))
    (hL : ∀ img ∈ actualL, ∀ r ∈ img, r = oneHot n ((n : ℤ) - 1)) :
    loc_loss_fn actualD predD = 0 ∧ conf_loss_fn ce actualL predL = 0 := by
  constructor
  · have hzero : (actualD.map (fun img => img.countP rowPos)).sum = 0 := by
      apply List.sum_eq_zero
      intro x hx
      rcases List.mem_map.mp hx with ⟨img, himg, rfl⟩
      rw [List.countP_eq_zero]
      intro r hr
      simp [rowPos_eq_false_of_all_zero r (hD img himg r hr)]
    simp only [loc_loss_fn, hzero]
    norm_num
  · have hzero : (actualL.map imagePosCount).sum = 0 := by
      apply List.sum_eq_zero
      intro x hx
      rcases List.mem_map.mp hx with ⟨img, himg, rfl⟩
      rw [imagePosCount, List.countP_eq_zero]
      intro r hr
      rw [hL img himg r hr]
      simp [lastComp_oneHot_bg n hn]
    simp only [conf_loss_fn, hzero]
    norm_num

theorem C2_witness :
    loc_loss_fn [[[0, 0, 0, 0]]] [[[5, 5, 5, 5]]] = 0 ∧
      conf_loss_fn (fun _ _ => 7) [[[1]]] [[[1]]] = 0 :=
  C2_zero_positive_batch_losses_zero (fun _ _ => 7) 1
    [[[0, 0, 0, 0]]] [[[5, 5, 5, 5]]] [[[1]]] [[[1]]]
    (by norm_num) (by decide) (by decide)

/-- C7: every coordinate of every box that `generate_prior_boxes`
returns lies in the closed interval `[0, 1]`: the final `np.clip` is
exhaustive. -/
theorem C7_prior_coords_in_unit_interval (sq : SqrtModel)
    (feature_map_shapes : List ℕ) (aspect_ratios : List (List ℚ))
    (boxes : List Box)
    (h : generate_prior_boxes sq feature_map_shapes aspect_ratios = some boxes) :
    ∀ b ∈ boxes,
      (0 ≤ b.1 ∧ b.1 ≤ 1) ∧ (0 ≤ b.2.1 ∧ b.2.1 ≤ 1) ∧
        (0 ≤ b.2.2.1 ∧ b.2.2.1 ≤ 1) ∧ (0 ≤ b.2.2.2 ∧ b.2.2.2 ≤ 1) := by
  intro b hb
  rw [generate_prior_boxes] at h
  split at h
  · exact absurd h (by simp)
  · rcases Option.map_eq_some'.mp h with ⟨raw, _, rfl⟩
    rcases List.mem_map.mp hb with ⟨b', _, rfl⟩
    exact ⟨⟨clip01_nonneg _, clip01_le_one _⟩, ⟨clip01_nonneg _, clip01_le_one _⟩,
      ⟨clip01_nonneg _, clip01_le_one _⟩, ⟨clip01_nonneg _, clip01_le_one _⟩⟩

/-- The concrete prior-box list for `feature_map_shapes = [2, 2]`,
`aspect_ratios = [[1], [1]]` under the `sqrtOne` square-root model,
used to evaluate theorems with hypotheses. -/
def priorBoxes22 : List Box :=
  [(3/20, 3/20, 7/20, 7/20), (0, 0, 3/4, 3/4),
   (3/20, 13/20, 7/20, 17/20), (0, 1/4, 3/4, 1),
   (13/20, 3/20, 17/20, 7/20), (1/4, 0, 1, 3/4),
   (13/20, 13/20, 17/20, 17/20), (1/4, 1/4, 1, 1),
   (0, 0, 7/10, 7/10), (0, 0, 3/4, 3/4),
   (0, 3/10, 7/10, 1), (0, 1/4, 3/4, 1),
   (3/10, 0, 1, 7/10), (1/4, 0, 1, 3/4),
   (3/10, 3/10, 1, 1), (1/4, 1/4, 1, 1)]

theorem eval_generate_22 :
    generate_prior_boxes sqrtOne [2, 2] [[1], [1]] = some priorBoxes22 := by
  norm_num [generate_prior_boxes, genLoop, priorBoxesForFeatureMap,
    get_height_width_pairs, get_scale_for_nth_feature_map,
    generate_base_prior_boxes, clipBox, clip01, sqrtOne, priorBoxes22,
    List.range_succ, Option.bind, List.mapM, List.mapM.loop]

theorem eval_generate_223 :
    generate_prior_boxes sqrtOne [2, 2] [[1], [1], [1]] = some priorBoxes22 := by
  norm_num [generate_prior_boxes, genLoop, priorBoxesForFeatureMap,
    get_height_width_pairs, get_scale_for_nth_feature_map,
    generate_base_prior_boxes, clipBox, clip01, sqrtOne, priorBoxes22,
    List.range_succ, Option.bind, List.mapM, List.mapM.loop]

theorem C7_witness :
    (0 ≤ (3 : ℚ) / 20 ∧ (3 : ℚ) / 20 ≤ 1) ∧ (0 ≤ (3 : ℚ) / 20 ∧ (3 : ℚ) / 20 ≤ 1) ∧
      (0 ≤ (7 : ℚ) / 20 ∧ (7 : ℚ) / 20 ≤ 1) ∧ (0 ≤ (7 : ℚ) / 20 ∧ (7 : ℚ) / 20 ≤ 1) :=
  C7_prior_coords_in_unit_interval sqrtOne [2, 2] [[1], [1]] priorBoxes22
    eval_generate_22 (3/20, 3/20, 7/20, 7/20) (by norm_num [priorBoxes22])

/-- C3 counterexample: `feature_map_shapes = [2]`,
`aspect_ratios = [[1.0]]` is a valid configuration in the claim's sense
(equal list lengths), yet `generate_prior_boxes` produces no boxes at
all: the scale formula divides by `m - 1 = 0`. -/
theorem C3_counterexample :
    ([2] : List ℕ).length = ([[1]] : List (List ℚ)).length ∧
      (generate_prior_boxes sqrtOne [2] [[1]]).isSome = false := by
  decide

/-- C9 counterexample: with `feature_map_shapes = [2]`,
`aspect_ratios = [[1.0]]` the call fails (division by zero at `m = 1`),
so in particular it does not return 8 prior boxes. -/
theorem C9_counterexample :
    (generate_prior_boxes sqrtOne [2] [[(1 : ℚ)]]).map List.length = none := by
  decide

/-- C8 counterexample: the feature-map list and the aspect-ratio list
have different lengths (2 versus 3), yet `generate_prior_boxes`
succeeds — the source contains no ConfigError validation at all. -/
theorem C8_counterexample :
    ([2, 2] : List ℕ).length ≠ ([[1], [1], [1]] : List (List ℚ)).length ∧
      (generate_prior_boxes sqrtOne [2, 2] [[1], [1], [1]]).isSome = true := by
  refine ⟨by decide, ?_⟩
  rw [eval_generate_223]
  rfl

theorem countP_add_countP_not (p : α → Bool) (l : List α) :
    l.countP p + l.countP (fun a => !p a) = l.length := by
  induction l with
  | nil => rfl
  | cons a l ih =>
    rw [List.countP_cons, List.countP_cons]
    cases h : p a <;> simp [h] <;> omega

theorem sortKey_eq_bot_iff (q : Bool × ℚ) : sortKey q = ⊥ ↔ q.1 = true := by
  rcases q with ⟨b, x⟩
  cases b <;> simp [sortKey]

/-- In the masked-loss descending sort, the entries kept in a length-`k`
prefix that are not positive number exactly `min k (number of
non-positive entries)`: the `-inf` masking pushes every positive entry
behind every negative one. -/
theorem take_sort_filter_neg_length (l : List (Bool × ℚ)) (k : ℕ) :
    (((List.insertionSort sortDescRel l).take k).filter (fun q => !q.1)).length
      = min k (l.countP (fun q => !q.1)) := by
  have hperm := List.perm_insertionSort sortDescRel l
  have hsort := List.sorted_insertionSort sortDescRel l
  rw [← hperm.countP_eq (fun q => !q.1)]
  revert k
  generalize List.insertionSort sortDescRel l = L at hsort
  induction L with
  | nil => intro k; simp
  | cons q L ih =>
    obtain ⟨hq, hL⟩ := List.sorted_cons.mp hsort
    intro k
    cases k with
    | zero => simp
    | succ k =>
      by_cases hqp : q.1 = true
      · have hall : ∀ b ∈ q :: L, b.1 = true := by
          intro b hb
          rcases List.mem_cons.mp hb with rfl | hb
          · exact hqp
          · have hbot : sortKey b = ⊥ := by
              have := hq b hb
              rw [sortDescRel, (sortKey_eq_bot_iff q).mpr hqp] at this
              exact le_bot_iff.mp this
            exact (sortKey_eq_bot_iff b).mp hbot
        have hcount : (q :: L).countP (fun q => !q.1) = 0 := by
          rw [List.countP_eq_zero]
          intro b hb
          simp [hall b hb]
        have hfilter : ((q :: L).take (k + 1)).filter (fun q => !q.1) = [] := by
          rw [List.filter_eq_nil_iff]
          intro b hb
          simp [hall b (List.mem_of_mem_take hb)]
        rw [hfilter, hcount]
        simp
      · have hqb : (!q.1) = true := by simp [hqp]
        simp only [List.take_succ_cons, List.filter_cons, List.countP_cons, hqb,
          if_true, List.length_cons]
        rw [ih hL k, Nat.succ_min_succ]

theorem lastComp_oneHot (n i : ℕ) (hn : 1 ≤ n) (_hi : i < n) :
    lastComp (oneHot n (i : ℤ)) = if n - 1 = i then 1 else 0 := by
  rw [lastComp, oneHot_length, oneHot_getD n _ (n - 1) (Nat.sub_lt hn one_pos)]
  by_cases hc : n - 1 = i
  · rw [if_pos (by exact_mod_cast hc), if_pos hc]
  · rw [if_neg (fun habs => hc (by exact_mod_cast habs)), if_neg hc]

theorem oneHot_ne_of_index_ne (n i : ℕ) (hi : i < n) (hne : (i : ℤ) ≠ (n : ℤ) - 1) :
    oneHot n (i : ℤ) ≠ oneHot n ((n : ℤ) - 1) := by
  intro heq
  have h1 : (oneHot n (i : ℤ)).getD i 0 = 1 := by
    rw [oneHot_getD n _ i hi, if_pos rfl]
  have h2 : (oneHot n ((n : ℤ) - 1)).getD i 0 = 0 := by
    rw [oneHot_getD n _ i hi, if_neg hne]
  rw [heq, h2] at h1
  norm_num at h1

/-- The code's positivity test (`actual_labels[..., -1] != 1`) agrees
with the specification's formulation (label target is not the
background one-hot) on genuine one-hot rows. -/
theorem posCond_eq_not_background (n : ℕ) (hn : 1 ≤ n) (r : List ℚ)
    (hr : ∃ i : ℕ, i < n ∧ r = oneHot n (i : ℤ)) :
    decide (lastComp r ≠ 1) = decide (r ≠ oneHot n ((n : ℤ) - 1)) := by
  obtain ⟨i, hi, rfl⟩ := hr
  by_cases hc : i = n - 1
  · have hlast : lastComp (oneHot n (i : ℤ)) = 1 := by
      rw [lastComp_oneHot n i hn hi, if_pos hc.symm]
    have hcast : (i : ℤ) = (n : ℤ) - 1 := by omega
    rw [hlast, hcast]
    simp
  · have hlast : lastComp (oneHot n (i : ℤ)) = 0 := by
      rw [lastComp_oneHot n i hn hi, if_neg (fun habs => hc habs.symm)]
    have hne : oneHot n (i : ℤ) ≠ oneHot n ((n : ℤ) - 1) :=
      oneHot_ne_of_index_ne n i hi (by omega)
    rw [hlast]
    simp [hne]

theorem countP_imagePairs (ce : List ℚ → List ℚ → ℚ) (g : Bool → Bool) :
    ∀ (a p : List (List ℚ)), p.length = a.length →
      (imagePairs ce a p).countP (fun q => g q.1)
        = a.countP (fun r => g (decide (lastComp r ≠ 1)))
  | [], _, _ => by simp [imagePairs]
  | r :: a, [], h => by simp at h
  | r :: a, pr :: p, h => by
    rw [imagePairs, List.zipWith_cons_cons, List.countP_cons, List.countP_cons,
      ← imagePairs, countP_imagePairs ce g a p (by simpa using h)]

/-- C1: for a batch image whose label targets are one-hot rows over `n`
classes, the number of genuinely negative priors among the entries
selected by hard-negative mining equals `min (3 * P) (total_priors - P)`
where `P` is the count of priors whose target is not the background
one-hot.  In particular an image with zero positives contributes zero
negatives. -/
theorem C1_hard_negative_count (ce : List ℚ → List ℚ → ℚ) (n : ℕ)
    (labels preds : List (List ℚ)) (hn : 1 ≤ n)
    (hlen : preds.length = labels.length)
    (hrows : ∀ r ∈ labels, ∃ i : ℕ, i < n ∧ r = oneHot n (i : ℤ)) :
    ((negSelected ce labels preds).filter (fun q => !q.1)).length
      = min (3 * labels.countP (fun r => decide (r ≠ oneHot n ((n : ℤ) - 1))))
          (labels.length
            - labels.countP (fun r => decide (r ≠ oneHot n ((n : ℤ) - 1)))) := by
  have hcongr : ∀ r ∈ labels,
      decide (lastComp r ≠ 1) = decide (r ≠ oneHot n ((n : ℤ) - 1)) :=
    fun r hr => posCond_eq_not_background n hn r (hrows r hr)
  have hP : imagePosCount labels
      = labels.countP (fun r => decide (r ≠ oneHot n ((n : ℤ) - 1))) := by
    rw [imagePosCount]
    exact List.countP_congr (fun r hr => by rw [hcongr r hr])
  have hneg : (imagePairs ce labels preds).countP (fun q => !q.1)
      = labels.length
          - labels.countP (fun r => decide (r ≠ oneHot n ((n : ℤ) - 1))) := by
    rw [countP_imagePairs ce (fun b => !b) labels preds hlen]
    have hcongr2 : labels.countP (fun r => !decide (lastComp r ≠ 1))
        = labels.countP (fun r => !decide (r ≠ oneHot n ((n : ℤ) - 1))) :=
      List.countP_congr (fun r hr => by rw [hcongr r hr])
    have hsum := countP_add_countP_not
      (fun r => decide (r ≠ oneHot n ((n : ℤ) - 1))) labels
    rw [hcongr2]
    omega
  rw [negSelected, take_sort_filter_neg_length, hP, hneg]

theorem C1_witness :
    ((negSelected (fun _ _ => 0) [oneHot 2 0, oneHot 2 1]
          [[0, 0], [0, 0]]).filter (fun q => !q.1)).length
      = min (3 * ([oneHot 2 0, oneHot 2 1].countP
            (fun r => decide (r ≠ oneHot 2 ((2 : ℤ) - 1)))))
          (([oneHot 2 0, oneHot 2 1] : List (List ℚ)).length
            - [oneHot 2 0, oneHot 2 1].countP
                (fun r => decide (r ≠ oneHot 2 ((2 : ℤ) - 1)))) :=
  C1_hard_negative_count (fun _ _ => 0) 2 [oneHot 2 0, oneHot 2 1]
    [[0, 0], [0, 0]] (by norm_num) rfl
    (by
      intro r hr
      rcases List.mem_cons.mp hr with rfl | hr
      · exact ⟨0, by norm_num, rfl⟩
      · rcases List.mem_cons.mp hr with rfl | hr
        · exact ⟨1, by norm_num, rfl⟩
        · exact absurd hr (List.not_mem_nil r))

theorem zip_filter_rowPos_length :
    ∀ (a p : List (List ℚ)), p.length = a.length →
      ((a.zip p).filter (fun rp => rowPos rp.1)).length = a.countP rowPos
  | [], _, _ => by simp
  | r :: a, [], h => by simp at h
  | r :: a, pr :: p, h => by
    rw [List.zip_cons_cons, List.filter_cons, List.countP_cons]
    cases hr : rowPos r with
    | true =>
      simp only [hr, if_true, List.length_cons,
        zip_filter_rowPos_length a p (by simpa using h)]
    | false =>
      simp only [hr, if_false, Bool.false_eq_true,
        zip_filter_rowPos_length a p (by simpa using h), Nat.add_zero]

/-- C4: the implemented localization loss agrees with the
specification-level formulation: select exactly the row pairs whose
actual delta row has a non-zero component, sum the Huber losses
(quadratic/linear boundary at `1`, cf. `huber1`) of the selected pairs
and divide by the number of positive priors in the whole batch, with
`0` for a batch without positives. -/
theorem C4_loc_loss_matches_spec (actual pred : List (List (List ℚ)))
    (h : List.Forall₂ (fun (ai pi : List (List ℚ)) => pi.length = ai.length)
      actual pred) :
    loc_loss_fn actual pred = locLossSpec actual pred := by
  have hcount : ((actual.zip pred).flatMap
        (fun ip => (ip.1.zip ip.2).filter (fun rp => rowPos rp.1))).length
      = (actual.map (fun img => img.countP rowPos)).sum := by
    rw [List.length_flatMap]
    induction h with
    | nil => rfl
    | cons him htail ih =>
      rename_i ai pi la lp
      simp only [List.zip_cons_cons, List.map_cons, Function.comp_apply,
        List.sum_cons, zip_filter_rowPos_length ai pi him, ih]
  simp only [loc_loss_fn, locLossSpec]
  rw [List.filter_flatMap, hcount]
  by_cases h0 : (actual.map (fun img => img.countP rowPos)).sum = 0
  · simp [h0]
  · rw [if_pos (Nat.cast_ne_zero.mpr h0), if_neg h0]

theorem C4_witness :
    loc_loss_fn [[[1, 0, 0, 0], [0, 0, 0, 0]]] [[[0, 0, 0, 0], [3, 3, 3, 3]]]
      = locLossSpec [[[1, 0, 0, 0], [0, 0, 0, 0]]] [[[0, 0, 0, 0], [3, 3, 3, 3]]] :=
  C4_loc_loss_matches_spec [[[1, 0, 0, 0], [0, 0, 0, 0]]]
    [[[0, 0, 0, 0], [3, 3, 3, 3]]] (List.Forall₂.cons rfl List.Forall₂.nil)

theorem scatter_fold_length (n : ℕ) (gt : List ℤ) :
    ∀ (ms : List (ℕ × ℕ)) (rows : List (List ℚ)),
      (ms.foldl (fun rows mt => rows.set mt.1 (oneHot n (gt.getD mt.2 0))) rows).length
        = rows.length
  | [], _ => rfl
  | m :: ms, rows => by
    rw [List.foldl_cons, scatter_fold_length n gt ms, List.length_set]

theorem scatter_fold_getD_not_mem (n : ℕ) (gt : List ℤ) :
    ∀ (ms : List (ℕ × ℕ)) (rows : List (List ℚ)) (j : ℕ),
      j ∉ ms.map Prod.fst →
      (ms.foldl (fun rows mt => rows.set mt.1 (oneHot n (gt.getD mt.2 0))) rows).getD j []
        = rows.getD j []
  | [], _, _, _ => rfl
  | m :: ms, rows, j, hj => by
    have hne : m.1 ≠ j := fun h => hj (by simp [← h])
    have hj' : j ∉ ms.map Prod.fst := fun h => hj (List.mem_cons_of_mem _ h)
    rw [List.foldl_cons, scatter_fold_getD_not_mem n gt ms _ j hj',
      List.getD_eq_getElem?_getD, List.getElem?_set_ne hne,
      ← List.getD_eq_getElem?_getD]

theorem scatter_fold_getD_mem (n : ℕ) (gt : List ℤ) :
    ∀ (ms : List (ℕ × ℕ)) (rows : List (List ℚ)),
      (ms.map Prod.fst).Nodup → (∀ m ∈ ms, m.1 < rows.length) →
      ∀ m ∈ ms,
        (ms.foldl (fun rows mt => rows.set mt.1 (oneHot n (gt.getD mt.2 0))) rows).getD m.1 []
          = oneHot n (gt.getD m.2 0)
  | [], _, _, _, m, hm => absurd hm (List.not_mem_nil m)
  | m0 :: ms, rows, hnd, hb, m, hm => by
    rw [List.map_cons, List.nodup_cons] at hnd
    rcases List.mem_cons.mp hm with rfl | hm'
    · rw [List.foldl_cons, scatter_fold_getD_not_mem n gt ms _ m.1 hnd.1,
        List.getD_eq_getElem?_getD,
        List.getElem?_set_self (hb m (List.mem_cons_self m _))]
      rfl
    · rw [List.foldl_cons]
      exact scatter_fold_getD_mem n gt ms _ hnd.2
        (fun x hx => by rw [List.length_set]; exact hb x (List.mem_cons_of_mem _ hx))
        m hm'

theorem init_rows_getD (n tp j : ℕ) (hj : j < tp) :
    (((List.range tp).map (fun _ => oneHot n ((n : ℤ) - 1)))).getD j []
      = oneHot n ((n : ℤ) - 1) := by
  rw [List.getD_eq_getElem?_getD, List.getElem?_map, List.getElem?_range hj]
  rfl

/-- C5: in the label targets of `calculate_actual_outputs`, a prior
matched to a ground-truth box receives the one-hot of that box's label
(the label gathered at the match's ground-truth index), and every
unmatched prior keeps the one-hot of the background class, which is
index `total_labels - 1`.  The matched prior indices are assumed
pairwise distinct and in range, which is what
`tf.tensor_scatter_nd_update` requires for a deterministic result. -/
theorem C5_label_assignment (n tp : ℕ) (matched : List (ℕ × ℕ)) (gt : List ℤ)
    (hnd : (matched.map Prod.fst).Nodup)
    (hp : ∀ m ∈ matched, m.1 < tp) :
    (∀ m ∈ matched,
        (calculate_actual_labels n tp matched gt).getD m.1 []
          = oneHot n (gt.getD m.2 0)) ∧
      (∀ j, j < tp → j ∉ matched.map Prod.fst →
        (calculate_actual_labels n tp matched gt).getD j []
          = oneHot n ((n : ℤ) - 1)) := by
  constructor
  · intro m hm
    rw [calculate_actual_labels]
    exact scatter_fold_getD_mem n gt matched _ hnd
      (fun x hx => by
        rw [List.length_map, List.length_range]
        exact hp x hx)
      m hm
  · intro j hj hjm
    rw [calculate_actual_labels, scatter_fold_getD_not_mem n gt matched _ j hjm,
      init_rows_getD n tp j hj]

theorem C5_witness :
    (calculate_actual_labels 3 4 [(1, 0), (3, 1)] [2, 0]).getD 1 []
        = oneHot 3 (([2, 0] : List ℤ).getD 0 0) ∧
      (calculate_actual_labels 3 4 [(1, 0), (3, 1)] [2, 0]).getD 0 []
        = oneHot 3 ((3 : ℤ) - 1) :=
  ⟨(C5_label_assignment 3 4 [(1, 0), (3, 1)] [2, 0] (by decide) (by decide)).1
      (1, 0) (by decide),
    (C5_label_assignment 3 4 [(1, 0), (3, 1)] [2, 0] (by decide) (by decide)).2
      0 (by decide) (by decide)⟩

theorem oneHot_mem_zero_or_one (n : ℕ) (i : ℤ) :
    ∀ x ∈ oneHot n i, x = 0 ∨ x = 1 := by
  intro x hx
  rcases List.mem_map.mp hx with ⟨j, _, rfl⟩
  by_cases hc : (j : ℤ) = i
  · right
    rw [if_pos hc]
  · left
    rw [if_neg hc]

theorem oneHot_sum (n : ℕ) (i : ℤ) :
    (oneHot n i).sum = if 0 ≤ i ∧ i < (n : ℤ) then 1 else 0 := by
  induction n with
  | zero =>
    rw [if_neg (by omega)]
    rfl
  | succ n ih =>
    have hsplit : oneHot (n + 1) i
        = oneHot n i ++ [if ((n : ℕ) : ℤ) = i then (1 : ℚ) else 0] := by
      rw [oneHot, oneHot, List.range_succ, List.map_append]
      rfl
    rw [hsplit, List.sum_append, ih]
    by_cases hc : ((n : ℕ) : ℤ) = i
    · rw [if_pos hc, if_neg (by omega), if_pos (by omega)]
      norm_num
    · rw [if_neg hc]
      by_cases h2 : 0 ≤ i ∧ i < (n : ℤ)
      · rw [if_pos h2, if_pos (by omega)]
        norm_num
      · rw [if_neg h2, if_neg (by omega)]
        norm_num

theorem scatter_fold_rows_one_hot (n : ℕ) (gt : List ℤ)
    (hlab : ∀ l ∈ gt, 0 ≤ l ∧ l < (n : ℤ)) :
    ∀ (ms : List (ℕ × ℕ)) (rows : List (List ℚ)),
      (∀ row ∈ rows, ∃ i : ℤ, 0 ≤ i ∧ i < (n : ℤ) ∧ row = oneHot n i) →
      (∀ m ∈ ms, m.2 < gt.length) →
      ∀ row ∈ ms.foldl (fun rows mt => rows.set mt.1 (oneHot n (gt.getD mt.2 0))) rows,
        ∃ i : ℤ, 0 ≤ i ∧ i < (n : ℤ) ∧ row = oneHot n i
  | [], rows, hrows, _, row, hrow => hrows row hrow
  | m :: ms, rows, hrows, hg, row, hrow => by
    rw [List.foldl_cons] at hrow
    refine scatter_fold_rows_one_hot n gt hlab ms _ ?_
      (fun x hx => hg x (List.mem_cons_of_mem _ hx)) row hrow
    intro r hr
    rcases List.mem_or_eq_of_mem_set hr with hr' | rfl
    · exact hrows r hr'
    · have hm2 : m.2 < gt.length := hg m (List.mem_cons_self m ms)
      have hmem : gt.getD m.2 0 ∈ gt := by
        rw [List.getD_eq_getElem gt 0 hm2]
        exact List.getElem_mem hm2
      exact ⟨gt.getD m.2 0, (hlab _ hmem).1, (hlab _ hmem).2, rfl⟩

/-- C10: whenever every ground-truth label lies in `[0, total_labels)`
and the matches point into the label list, every per-prior row of the
label target is a valid one-hot vector: entries in `{0, 1}` summing to
exactly `1`. -/
theorem C10_label_rows_valid_one_hot (n tp : ℕ) (matched : List (ℕ × ℕ))
    (gt : List ℤ) (hn : 1 ≤ n)
    (hlab : ∀ l ∈ gt, 0 ≤ l ∧ l < (n : ℤ))
    (hg : ∀ m ∈ matched, m.2 < gt.length) :
    ∀ row ∈ calculate_actual_labels n tp matched gt,
      (∀ x ∈ row, x = 0 ∨ x = 1) ∧ row.sum = 1 := by
  intro row hrow
  rw [calculate_actual_labels] at hrow
  have hinv := scatter_fold_rows_one_hot n gt hlab matched
    ((List.range tp).map (fun _ => oneHot n ((n : ℤ) - 1)))
    (fun r hr => by
      rcases List.mem_map.mp hr with ⟨j, _, rfl⟩
      exact ⟨(n : ℤ) - 1, by omega, by omega, rfl⟩)
    hg row hrow
  obtain ⟨i, h0, h1, rfl⟩ := hinv
  exact ⟨oneHot_mem_zero_or_one n i, by rw [oneHot_sum, if_pos ⟨h0, h1⟩]⟩

theorem eval_labels_witness :
    calculate_actual_labels 2 2 [(0, 0)] [0] = [[1, 0], [0, 1]] := by
  norm_num [calculate_actual_labels, oneHot, List.range_succ]

theorem C10_witness :
    ((1 : ℚ) = 0 ∨ (1 : ℚ) = 1) ∧ ([(1 : ℚ), 0]).sum = 1 :=
  have h := C10_label_rows_valid_one_hot 2 2 [(0, 0)] [0] (by norm_num)
    (by decide) (by decide) [1, 0]
    (by
      rw [eval_labels_witness]
      norm_num)
  ⟨h.1 1 (by norm_num), h.2⟩

theorem mapM_eq_map_of_some (f : α → Option β) (g : α → β) :
    ∀ l : List α, (∀ a ∈ l, f a = some (g a)) → l.mapM f = some (l.map g)
  | [], _ => rfl
  | a :: l, h => by
    rw [List.mapM_cons, h a (List.mem_cons_self a l),
      mapM_eq_map_of_some f g l (fun x hx => h x (List.mem_cons_of_mem _ hx))]
    rfl

theorem mapM_eq_none_of_mem (f : α → Option β) :
    ∀ (l : List α) (a : α), a ∈ l → f a = none → l.mapM f = none
  | [], a, hmem, _ => absurd hmem (List.not_mem_nil a)
  | a' :: l, a, hmem, hnone => by
    rw [List.mapM_cons]
    rcases List.mem_cons.mp hmem with rfl | hmem'
    · rw [hnone]
      rfl
    · cases hfa : f a' with
      | none => rfl
      | some b =>
        show (List.mapM f l >>= fun bs => pure (b :: bs) : Option (List β)) = none
        rw [mapM_eq_none_of_mem f l a hmem' hnone]
        rfl

/-- The scale value of the specification formula
`scale(k) = scale_min + (scale_max - scale_min)/(m-1) * (k-1)` with the
fixed constants `scale_min = 0.2`, `scale_max = 0.9`. -/
def scaleVal (k m : ℕ) : ℚ :=
  (0.2 : ℚ) + (((0.9 : ℚ) - 0.2) / ((m : ℚ) - 1)) * ((k : ℚ) - 1)

theorem get_scale_eq (k m : ℕ) (hm : 2 ≤ m) :
    get_scale_for_nth_feature_map k m = some (scaleVal k m) := by
  rw [get_scale_for_nth_feature_map, if_neg (by omega)]
  rfl

theorem scaleVal_pos (k m : ℕ) (hk : 1 ≤ k) (hm : 2 ≤ m) : 0 < scaleVal k m := by
  rw [scaleVal]
  have h1 : (0 : ℚ) < (m : ℚ) - 1 := by
    have h : (2 : ℚ) ≤ (m : ℚ) := by exact_mod_cast hm
    linarith
  have h2 : (0 : ℚ) ≤ (k : ℚ) - 1 := by
    have h : (1 : ℚ) ≤ (k : ℚ) := by exact_mod_cast hk
    linarith
  have h3 : (0 : ℚ) ≤ (((0.9 : ℚ) - 0.2) / ((m : ℚ) - 1)) * ((k : ℚ) - 1) :=
    mul_nonneg (le_of_lt (div_pos (by norm_num) h1)) h2
  linarith

theorem get_height_width_pairs_eq (sq : SqrtModel) (ratios : List ℚ) (k m : ℕ)
    (hm : 2 ≤ m) (hk : 1 ≤ k) (hr : ∀ r ∈ ratios, 0 < r) :
    get_height_width_pairs sq ratios k m
      = some ((ratios.map
            (fun r => (scaleVal k m / sq.sqrt r, scaleVal k m * sq.sqrt r)))
          ++ [(sq.sqrt (scaleVal k m * scaleVal (k + 1) m),
               sq.sqrt (scaleVal k m * scaleVal (k + 1) m))]) := by
  have hmap := mapM_eq_map_of_some
    (fun r => if r < 0 then none
      else if sq.sqrt r = 0 then none
      else some (scaleVal k m / sq.sqrt r, scaleVal k m * sq.sqrt r))
    (fun r => (scaleVal k m / sq.sqrt r, scaleVal k m * sq.sqrt r)) ratios
    (fun r hrm => by
      dsimp only
      rw [if_neg (not_lt.mpr (le_of_lt (hr r hrm))),
        if_neg (ne_of_gt (sq.sqrt_pos r (hr r hrm)))])
  have hpos : ¬ scaleVal k m * scaleVal (k + 1) m < 0 :=
    not_lt.mpr (le_of_lt (mul_pos (scaleVal_pos k m hk hm)
      (scaleVal_pos (k + 1) m (by omega) hm)))
  rw [get_height_width_pairs, get_scale_eq k m hm, get_scale_eq (k + 1) m hm]
  simp only [Option.bind_eq_bind, Option.some_bind, hmap, if_neg hpos]

/-- C6: for scale index `k` (1-based) of `m` total scales (`m ≥ 2`, as
required for the formula's division by `m - 1` to be defined), the
scale is `0.2 + (0.9 - 0.2)/(m-1) * (k-1)`; each positive aspect ratio
`r` yields the pair `(scale(k)/sqrt(r), scale(k)*sqrt(r))`; and one
extra pair with both components `sqrt(scale(k) * scale(k+1))` is
appended after all configured ratios, `scale(m+1)` being given by the
same formula extended one step beyond `m`. -/
theorem C6_scale_and_height_width_formulas (sq : SqrtModel) (ratios : List ℚ)
    (k m : ℕ) (hm : 2 ≤ m) (hk : 1 ≤ k) (hr : ∀ r ∈ ratios, 0 < r) :
    get_scale_for_nth_feature_map k m
        = some ((0.2 : ℚ) + (((0.9 : ℚ) - 0.2) / ((m : ℚ) - 1)) * ((k : ℚ) - 1)) ∧
      get_height_width_pairs sq ratios k m
        = some ((ratios.map
              (fun r => (scaleVal k m / sq.sqrt r, scaleVal k m * sq.sqrt r)))
            ++ [(sq.sqrt (scaleVal k m * scaleVal (k + 1) m),
                 sq.sqrt (scaleVal k m * scaleVal (k + 1) m))]) :=
  ⟨get_scale_eq k m hm, get_height_width_pairs_eq sq ratios k m hm hk hr⟩

theorem C6_witness :
    get_scale_for_nth_feature_map 1 2
        = some ((0.2 : ℚ) + (((0.9 : ℚ) - 0.2) / ((2 : ℚ) - 1)) * ((1 : ℚ) - 1)) ∧
      get_height_width_pairs sqrtOne [1] 1 2
        = some (([(1 : ℚ)].map
              (fun r => (scaleVal 1 2 / sqrtOne.sqrt r, scaleVal 1 2 * sqrtOne.sqrt r)))
            ++ [(sqrtOne.sqrt (scaleVal 1 2 * scaleVal 2 2),
                 sqrtOne.sqrt (scaleVal 1 2 * scaleVal 2 2))]) :=
  C6_scale_and_height_width_formulas sqrtOne [1] 1 2 (by norm_num) (by norm_num)
    (by
      intro r hrm
      rw [List.mem_singleton.mp hrm]
      norm_num)

theorem priorBoxesForFeatureMap_length (sq : SqrtModel) (ar : List ℚ)
    (k m s : ℕ) (hm : 2 ≤ m) (hk : 1 ≤ k) (hs : 1 ≤ s)
    (hr : ∀ r ∈ ar, 0 < r) :
    ∃ B, priorBoxesForFeatureMap sq ar k m s = some B ∧
      B.length = s ^ 2 * (ar.length + 1) := by
  rw [priorBoxesForFeatureMap, get_height_width_pairs_eq sq ar k m hm hk hr]
  simp only [Option.bind_eq_bind, Option.some_bind, if_neg (by omega : ¬ s = 0)]
  refine ⟨_, rfl, ?_⟩
  rw [List.length_flatMap]
  have hbase : ∀ c : ℚ × ℚ,
      ((generate_base_prior_boxes (1 / (s : ℚ))
          ((ar.map (fun r => (scaleVal k m / sq.sqrt r, scaleVal k m * sq.sqrt r)))
            ++ [(sq.sqrt (scaleVal k m * scaleVal (k + 1) m),
                 sq.sqrt (scaleVal k m * scaleVal (k + 1) m))])).map
        (fun b => (b.1 + c.1, b.2.1 + c.2, b.2.2.1 + c.1, b.2.2.2 + c.2))).length
      = ar.length + 1 := by
    intro c
    rw [List.length_map, generate_base_prior_boxes, List.length_map,
      List.length_append, List.length_map, List.length_singleton]
  have hcells : ((List.range s).flatMap (fun (y : ℕ) =>
      (List.range s).map (fun (x : ℕ) => ((y : ℚ) / (s : ℚ), (x : ℚ) / (s : ℚ))))).length
      = s * s := by
    rw [List.length_flatMap]
    have hconst : ∀ y ∈ List.range s, (List.length ∘ fun (y : ℕ) =>
        (List.range s).map (fun (x : ℕ) => ((y : ℚ) / (s : ℚ), (x : ℚ) / (s : ℚ)))) y = s := by
      intro y _
      simp
    rw [List.map_congr_left hconst, List.map_const', List.sum_replicate,
      List.length_range, smul_eq_mul]
  calc (List.map (List.length ∘ fun c => List.map _ _) _).sum
      = (List.map (fun _ => ar.length + 1) ((List.range s).flatMap (fun (y : ℕ) =>
          (List.range s).map
            (fun (x : ℕ) => ((y : ℚ) / (s : ℚ), (x : ℚ) / (s : ℚ)))))).sum := by
        apply congrArg
        apply List.map_congr_left
        intro c _
        exact hbase c
    _ = s ^ 2 * (ar.length + 1) := by
        rw [List.map_const', List.sum_replicate, smul_eq_mul, hcells, pow_two]

theorem genLoop_eval (sq : SqrtModel) (ars : List (List ℚ)) (m : ℕ)
    (hm : 2 ≤ m) (hr : ∀ ar ∈ ars, ∀ r ∈ ar, 0 < r) :
    ∀ (rem : List ℕ) (i : ℕ), i + rem.length ≤ ars.length → (∀ s ∈ rem, 1 ≤ s) →
      ∃ L, genLoop sq ars m i rem = some L ∧
        L.length = ((rem.zip (ars.drop i)).map
          (fun sa => sa.1 ^ 2 * (sa.2.length + 1))).sum
  | [], i, _, _ => ⟨[], rfl, by simp⟩
  | s :: rest, i, hlen, hs => by
    have hi : i < ars.length := by
      simp only [List.length_cons] at hlen
      omega
    obtain ⟨B, hB, hBlen⟩ := priorBoxesForFeatureMap_length sq ars[i] (i + 1) m s
      hm (by omega) (hs s (List.mem_cons_self s rest)) (hr _ (List.getElem_mem hi))
    obtain ⟨L, hL, hLlen⟩ := genLoop_eval sq ars m hm hr rest (i + 1)
      (by
        simp only [List.length_cons] at hlen
        omega)
      (fun x hx => hs x (List.mem_cons_of_mem _ hx))
    refine ⟨B ++ L, ?_, ?_⟩
    · show (ars[i]?.bind fun ar => (priorBoxesForFeatureMap sq ar (i + 1) m s).bind
        fun boxes => (genLoop sq ars m (i + 1) rest).bind
          fun more => some (boxes ++ more) : Option (List Box)) = some (B ++ L)
      rw [List.getElem?_eq_getElem hi, Option.some_bind, hB, Option.some_bind, hL,
        Option.some_bind]
    · rw [List.length_append, hBlen, hLlen, List.drop_eq_getElem_cons hi,
        List.zip_cons_cons, List.map_cons, List.sum_cons]

/-- C3 amended: for every configuration with equal-length lists, at
least two scales, positive feature-map side lengths and positive aspect
ratios, `generate_prior_boxes` succeeds and the number of returned
boxes is the sum over scales of `feature_map_shape_i^2 *
(len(aspect_ratios_i) + 1)` (each box is a 4-tuple by the `Box` type).
The two-scale lower bound is forced by the scale formula's division by
`m - 1`, which makes every single-scale configuration fail. -/
theorem C3_amended_prior_box_count (sq : SqrtModel) (shapes : List ℕ)
    (ars : List (List ℚ)) (h2 : 2 ≤ shapes.length)
    (hlen : ars.length = shapes.length) (hs : ∀ s ∈ shapes, 1 ≤ s)
    (hr : ∀ ar ∈ ars, ∀ r ∈ ar, 0 < r) :
    (generate_prior_boxes sq shapes ars).map List.length
      = some (((shapes.zip ars).map
          (fun sa => sa.1 ^ 2 * (sa.2.length + 1))).sum) := by
  obtain ⟨L, hL, hLlen⟩ := genLoop_eval sq ars shapes.length h2 hr shapes 0
    (by omega) hs
  have hne : ¬ shapes.isEmpty = true := by
    cases shapes with
    | nil => simp at h2
    | cons a l => simp
  rw [generate_prior_boxes, if_neg hne, hL]
  simp [hLlen]

theorem C3_amended_witness :
    (generate_prior_boxes sqrtOne [2, 2] [[1], [1]]).map List.length
      = some (((([2, 2] : List ℕ).zip ([[1], [1]] : List (List ℚ))).map
          (fun sa => sa.1 ^ 2 * (sa.2.length + 1))).sum) :=
  C3_amended_prior_box_count sqrtOne [2, 2] [[1], [1]] (by norm_num) rfl
    (by
      intro s hsm
      rcases List.mem_cons.mp hsm with rfl | hsm
      · norm_num
      · rcases List.mem_cons.mp hsm with rfl | hsm
        · norm_num
        · exact absurd hsm (List.not_mem_nil s))
    (by
      intro ar har r hrr
      rcases List.mem_cons.mp har with rfl | har
      · rw [List.mem_singleton.mp hrr]
        norm_num
      · rcases List.mem_cons.mp har with rfl | har
        · rw [List.mem_singleton.mp hrr]
          norm_num
        · exact absurd har (List.not_mem_nil ar))

theorem hwp_none_of_nonpos (sq : SqrtModel) (ratios : List ℚ) (k m : ℕ)
    (r : ℚ) (hrmem : r ∈ ratios) (hrle : r ≤ 0) :
    get_height_width_pairs sq ratios k m = none := by
  rw [get_height_width_pairs]
  cases h1 : get_scale_for_nth_feature_map k m with
  | none => rfl
  | some c1 =>
    cases h2 : get_scale_for_nth_feature_map (k + 1) m with
    | none => rfl
    | some c2 =>
      show (ratios.mapM (fun r => if r < 0 then none
          else if sq.sqrt r = 0 then none
          else some (c1 / sq.sqrt r, c1 * sq.sqrt r))).bind _ = none
      rw [mapM_eq_none_of_mem _ ratios r hrmem ?_]
      · rfl
      · dsimp only
        by_cases hr0 : r < 0
        · rw [if_pos hr0]
        · have : r = 0 := le_antisymm hrle (not_lt.mp hr0)
          rw [if_neg hr0, this, sq.sqrt_zero, if_pos rfl]

theorem genLoop_none_of_short (sq : SqrtModel) (ars : List (List ℚ)) (m : ℕ) :
    ∀ (rem : List ℕ) (i : ℕ), ars.length < i + rem.length → i ≤ ars.length →
      genLoop sq ars m i rem = none
  | [], i, h1, h2 => absurd h1 (by simp; omega)
  | s :: rest, i, h1, h2 => by
    by_cases hi : i < ars.length
    · show (ars[i]?.bind fun ar => (priorBoxesForFeatureMap sq ar (i + 1) m s).bind
        fun boxes => (genLoop sq ars m (i + 1) rest).bind
          fun more => some (boxes ++ more) : Option (List Box)) = none
      rw [List.getElem?_eq_getElem hi, Option.some_bind]
      cases hB : priorBoxesForFeatureMap sq ars[i] (i + 1) m s with
      | none => rfl
      | some B =>
        rw [Option.some_bind, genLoop_none_of_short sq ars m rest (i + 1)
          (by
            simp only [List.length_cons] at h1
            omega)
          (by omega)]
        rfl
    · show (ars[i]?.bind fun ar => (priorBoxesForFeatureMap sq ar (i + 1) m s).bind
        fun boxes => (genLoop sq ars m (i + 1) rest).bind
          fun more => some (boxes ++ more) : Option (List Box)) = none
      rw [List.getElem?_eq_none_iff.mpr (by omega)]
      rfl

theorem genLoop_take (sq : SqrtModel) (ars : List (List ℚ)) (m n : ℕ) :
    ∀ (rem : List ℕ) (i : ℕ), i + rem.length ≤ n →
      genLoop sq (ars.take n) m i rem = genLoop sq ars m i rem
  | [], _, _ => rfl
  | s :: rest, i, h => by
    have hi : i < n := by
      simp only [List.length_cons] at h
      omega
    show ((ars.take n)[i]?.bind fun ar =>
        (priorBoxesForFeatureMap sq ar (i + 1) m s).bind
          fun boxes => (genLoop sq (ars.take n) m (i + 1) rest).bind
            fun more => some (boxes ++ more) : Option (List Box))
      = (ars[i]?.bind fun ar => (priorBoxesForFeatureMap sq ar (i + 1) m s).bind
          fun boxes => (genLoop sq ars m (i + 1) rest).bind
            fun more => some (boxes ++ more))
    rw [List.getElem?_take_of_lt hi]
    have hrec := genLoop_take sq ars m n rest (i + 1)
      (by
        simp only [List.length_cons] at h
        omega)
    rw [hrec]

/-- C8 amended: the source contains no ConfigError validation at all.
A non-positive aspect ratio makes `get_height_width_pairs` fail with a
math error (ValueError / ZeroDivisionError), an aspect-ratio list
shorter than the feature-map list makes `generate_prior_boxes` fail
with an IndexError, and a longer aspect-ratio list is silently ignored:
the call behaves exactly as on the truncated list.  The functions are
pure (no side effects, by construction of the embedding). -/
theorem C8_amended_no_validation :
    (∀ (sq : SqrtModel) (ratios : List ℚ) (k m : ℕ) (r : ℚ),
        r ∈ ratios → r ≤ 0 → get_height_width_pairs sq ratios k m = none) ∧
      (∀ (sq : SqrtModel) (shapes : List ℕ) (ars : List (List ℚ)),
        ars.length < shapes.length → generate_prior_boxes sq shapes ars = none) ∧
      (∀ (sq : SqrtModel) (shapes : List ℕ) (ars : List (List ℚ)),
        generate_prior_boxes sq shapes ars
          = generate_prior_boxes sq shapes (ars.take shapes.length)) := by
  refine ⟨hwp_none_of_nonpos, ?_, ?_⟩
  · intro sq shapes ars hshort
    have hne : ¬ shapes.isEmpty = true := by
      cases shapes with
      | nil => simp at hshort
      | cons a l => simp
    rw [generate_prior_boxes, if_neg hne,
      genLoop_none_of_short sq ars shapes.length shapes 0 (by omega) (by omega)]
    rfl
  · intro sq shapes ars
    rw [generate_prior_boxes, generate_prior_boxes,
      genLoop_take sq ars shapes.length shapes.length shapes 0 (by omega)]

theorem C8_amended_witness :
    get_height_width_pairs sqrtOne [0] 1 2 = none ∧
      generate_prior_boxes sqrtOne [2, 2] [[1]] = none ∧
      generate_prior_boxes sqrtOne [2, 2] [[1], [1], [1]]
        = generate_prior_boxes sqrtOne [2, 2] ([[1], [1], [1]].take 2) :=
  ⟨C8_amended_no_validation.1 sqrtOne [0] 1 2 0 (List.mem_singleton.mpr rfl) le_rfl,
    C8_amended_no_validation.2.1 sqrtOne [2, 2] [[1]] (by norm_num),
    C8_amended_no_validation.2.2 sqrtOne [2, 2] [[1], [1], [1]]⟩

set_option maxHeartbeats 1600000 in
/-- C9 amended: the claimed single-scale scenario
(`feature_map_shapes = [2]`, `aspect_ratios = [[1.0]]`) fails because
the scale formula divides by `m - 1 = 0`, so the coordinate check is
carried out on the smallest configuration that runs, the two-scale
`feature_map_shapes = [2, 2]`, `aspect_ratios = [[1.0], [1.0]]`: the
call returns 16 boxes (2 per cell x 4 cells x 2 scales) and the two
boxes of cell `(0, 0)` of the first scale have exactly the coordinates
`(c - h/2, c - w/2, c + h/2, c + w/2)` (clipped to `[0, 1]`) with
`c = 0.25`, the first `(h, w)` pair being `(0.2, 0.2)` from the scale
formula at `k = 1, m = 2` with ratio 1 and the second being the extra
pair `sqrt(scale(1) * scale(2)) = sqrt(0.18)` on both components. -/
theorem C9_amended_cell00_coordinates (sq : SqrtModel) :
    (generate_prior_boxes sq [2, 2] [[1], [1]]).map List.length = some 16 ∧
      (generate_prior_boxes sq [2, 2] [[1], [1]]).bind (fun l => l[0]?)
        = some (3/20, 3/20, 7/20, 7/20) ∧
      (generate_prior_boxes sq [2, 2] [[1], [1]]).bind (fun l => l[1]?)
        = some (clip01 (1/4 - sq.sqrt (9/50) / 2), clip01 (1/4 - sq.sqrt (9/50) / 2),
                clip01 (1/4 + sq.sqrt (9/50) / 2), clip01 (1/4 + sq.sqrt (9/50) / 2)) := by
  have hgen : generate_prior_boxes sq [2, 2] [[1], [1]] = some
      [(3/20, 3/20, 7/20, 7/20),
       (clip01 (1/4 - sq.sqrt (9/50) / 2), clip01 (1/4 - sq.sqrt (9/50) / 2),
        clip01 (1/4 + sq.sqrt (9/50) / 2), clip01 (1/4 + sq.sqrt (9/50) / 2)),
       (3/20, 13/20, 7/20, 17/20),
       (clip01 (1/4 - sq.sqrt (9/50) / 2), clip01 (3/4 - sq.sqrt (9/50) / 2),
        clip01 (1/4 + sq.sqrt (9/50) / 2), clip01 (3/4 + sq.sqrt (9/50) / 2)),
       (13/20, 3/20, 17/20, 7/20),
       (clip01 (3/4 - sq.sqrt (9/50) / 2), clip01 (1/4 - sq.sqrt (9/50) / 2),
        clip01 (3/4 + sq.sqrt (9/50) / 2), clip01 (1/4 + sq.sqrt (9/50) / 2)),
       (13/20, 13/20, 17/20, 17/20),
       (clip01 (3/4 - sq.sqrt (9/50) / 2), clip01 (3/4 - sq.sqrt (9/50) / 2),
        clip01 (3/4 + sq.sqrt (9/50) / 2), clip01 (3/4 + sq.sqrt (9/50) / 2)),
       (0, 0, 7/10, 7/10),
       (clip01 (1/4 - sq.sqrt (36/25) / 2), clip01 (1/4 - sq.sqrt (36/25) / 2),
        clip01 (1/4 + sq.sqrt (36/25) / 2), clip01 (1/4 + sq.sqrt (36/25) / 2)),
       (0, 3/10, 7/10, 1),
       (clip01 (1/4 - sq.sqrt (36/25) / 2), clip01 (3/4 - sq.sqrt (36/25) / 2),
        clip01 (1/4 + sq.sqrt (36/25) / 2), clip01 (3/4 + sq.sqrt (36/25) / 2)),
       (3/10, 0, 1, 7/10),
       (clip01 (3/4 - sq.sqrt (36/25) / 2), clip01 (1/4 - sq.sqrt (36/25) / 2),
        clip01 (3/4 + sq.sqrt (36/25) / 2), clip01 (1/4 + sq.sqrt (36/25) / 2)),
       (3/10, 3/10, 1, 1),
       (clip01 (3/4 - sq.sqrt (36/25) / 2), clip01 (3/4 - sq.sqrt (36/25) / 2),
        clip01 (3/4 + sq.sqrt (36/25) / 2), clip01 (3/4 + sq.sqrt (36/25) / 2))] := by
    norm_num [generate_prior_boxes, genLoop, priorBoxesForFeatureMap,
      get_height_width_pairs, get_scale_for_nth_feature_map,
      generate_base_prior_boxes, clipBox, clip01, sq.sqrt_one,
      List.range_succ, Option.bind, List.mapM, List.mapM.loop]
    refine ⟨⟨?_, ?_⟩, ?_, ?_⟩ <;> (congr 1; congr 1; ring)
  rw [hgen]
  exact ⟨rfl, rfl, rfl⟩
